import Mathlib

/-!
# Verification of the strprofiler core (`strprofiler.py`)

Shallow embedding of the STR-profile comparison program: the canonicalizer
(`str_ingress` and `_clean_element`), the similarity scorer (`score_query`),
the mixing detector (`mixing_check`) and the summarizer (`make_summary`).

Modelling conventions:
* Python dicts of marker name to allele string become association lists
  `List (String × String)` (`Rec`); a dict never has duplicate keys, and
  the lemmas below either hold for all association lists or take explicit
  `Nodup` hypotheses.
* Python floats become `ℚ`; a raised `ZeroDivisionError` or `IndexError`
  becomes `Option.none`.
* `str.split(",")` and `",".join(...)` are modelled character by character
  (`splitComma`, `joinComma`), matching Python's semantics, including
  `"".split(",") == [""]`.
* `str.strip()` is modelled as trimming ASCII whitespace from both ends,
  and `str.rstrip(".0")` with Python's character-set semantics: it removes
  every trailing character that is `'.'` or `'0'`, not a literal `".0"`
  suffix.
-/

namespace StrProfiler

/-- A Python dict from marker name to comma-joined allele string. -/
abbrev Rec := List (String × String)

/-! ## Character-level string primitives -/

/-- Python `s.split(",")` at the character-list level: split on every comma,
keeping empty fields, so `splitC [] = [[]]` (Python: `"".split(",") == [""]`). -/
def splitC : List Char → List (List Char)
  | [] => [[]]
  | c :: rest =>
    if c = ',' then [] :: splitC rest
    else
      match splitC rest with
      | [] => [[c]]
      | t :: ts => (c :: t) :: ts

/-- Python `",".join(...)` at the character-list level. -/
def joinC : List (List Char) → List Char
  | [] => []
  | t :: [] => t
  | t :: t' :: ts => t ++ ',' :: joinC (t' :: ts)

/-- Python `s.split(",")`. -/
def splitComma (s : String) : List String := (splitC s.data).map String.mk

/-- Python `",".join(l)`. -/
def joinComma (l : List String) : String := String.mk (joinC (l.map String.data))

/-- Python `s.strip()` on a character list: drop whitespace from both ends. -/
def trimChars (l : List Char) : List Char :=
  ((l.dropWhile Char.isWhitespace).reverse.dropWhile Char.isWhitespace).reverse

/-- Python `s.strip()`. -/
def pyStrip (s : String) : String := String.mk (trimChars s.data)

/-- Python `s.rstrip(".0")`: removes every trailing character belonging to the
set `{'.', '0'}` (NOT just a literal `".0"` suffix — this is Python's
character-set `rstrip` semantics, exactly as the source executes it). -/
def rstripDotZero (s : String) : String :=
  String.mk (s.data.reverse.dropWhile (fun c => c == '.' || c == '0')).reverse

/-- Python `s.strip(",")`: drop commas from both ends (used by the wide-layout
`.str.strip(",")` in `str_ingress`). -/
def stripCommas (s : String) : String :=
  String.mk ((s.data.dropWhile (· == ',')).reverse.dropWhile (· == ',')).reverse

/-- The per-token cleanup `str(y).strip().rstrip(".0")` used on every allele
cell (wide layout, line 56) and every allele token (`_clean_element`). -/
def pyCleanToken (s : String) : String := rstripDotZero (pyStrip s)

/-- Helper for first-seen-order deduplication: keep each element not already
seen, threading the set of seen elements. -/
def fsdAux (seen : List String) : List String → List String
  | [] => []
  | a :: l => if a ∈ seen then fsdAux seen l else a :: fsdAux (a :: seen) l

/-- First-seen-order deduplication, the model of Python's
`OrderedDict.fromkeys(...)` (keep the first occurrence of each element). -/
def firstSeenDedup (l : List String) : List String := fsdAux [] l

/-- Insert a string into a sorted list (used to model Python `list.sort()`). -/
def insertSorted (a : String) : List String → List String
  | [] => [a]
  | b :: l => if a ≤ b then a :: b :: l else b :: insertSorted a l

/-- Model of Python `list.sort()` on strings: insertion sort by the
lexicographic order (Python sorts strings lexicographically by code point,
exactly the `String` linear order). -/
def sortStr (l : List String) : List String := l.foldr insertSorted []

/-! ## Canonicalizer (`str_ingress`, `_clean_element`) -/

/-- Wide-layout per-row allele assembly (`str_ingress` lines 52-61):
`",".join([str(y).strip().rstrip(".0") for y in x if str(y) != "nan"])`
followed by `.str.strip(",")`, where `cells` are the `Allele*`-column values
of one row rendered as strings (pandas renders missing cells as `"nan"`). -/
def assembleAlleles (cells : List String) : String :=
  stripCommas (joinComma ((cells.filter (fun y => !(y == "nan"))).map pyCleanToken))

/-- The duplicate-removal pass of the wide branch (`str_ingress` lines 71-76):
`",".join(OrderedDict.fromkeys(v.split(",")))`. -/
def dedupJoin (v : String) : String := joinComma (firstSeenDedup (splitComma v))

/-- `_clean_element` (lines 124-130): split on commas, strip and
`rstrip(".0")` each token, deduplicate via `set`, sort, and re-join.
`list(set(...))` followed by `.sort()` yields the sorted duplicate-free list
of the token set, modelled as `sortStr` of a deduplicated list. -/
def cleanElement (v : String) : String :=
  joinComma (sortStr (((splitComma v).map pyCleanToken).dedup))

/-- Apply the wide-branch duplicate removal to every marker value of a
sample dict (the `for k in samps_dict.keys(): if k != "Sample"` loop; the
`Sample` key is modelled separately from the marker dict). -/
def cleanWideRecord (d : Rec) : Rec := d.map (fun p => (p.1, dedupJoin p.2))

/-- Apply `_clean_element` to every marker value of a long-layout row
(`str_ingress` lines 100-102). -/
def cleanLongRecord (d : Rec) : Rec := d.map (fun p => (p.1, cleanElement p.2))

/-- Python `k in d` for a dict modelled as an association list. -/
def dictMem (d : Rec) (k : String) : Bool := (d.lookup k).isSome

/-- Python `d.pop(k)`'s effect on the dict: remove every binding of `k`. -/
def dictRemove (d : Rec) (k : String) : Rec := d.filter (fun p => !(p.1 == k))

/-- Python `d[k] = v`: overwrite in place if the key exists (a dict has at
most one binding per key), otherwise append the new binding at the end. -/
def dictSet (d : Rec) (k : String) (v : String) : Rec :=
  if dictMem d k then d.map (fun p => if p.1 == k then (k, v) else p)
  else d ++ [(k, v)]

/-- One alias-folding block of `str_ingress` (lines 80-83 resp. 85-88):
`if aliasSp in d: d[canon] = d.pop(aliasSp) elif aliasUn in d: ...`. -/
def pentaFold (aliasSp aliasUn canon : String) (d : Rec) : Rec :=
  match d.lookup aliasSp with
  | some v => dictSet (dictRemove d aliasSp) canon v
  | none =>
    match d.lookup aliasUn with
    | some v => dictSet (dictRemove d aliasUn) canon v
    | none => d

/-- The Penta-alias normalization of the wide branch (`str_ingress` lines
79-88); the long branch of the source applies no such normalization. -/
def pentaFixRecord (pfix : Bool) (d : Rec) : Rec :=
  if pfix then pentaFold "Penta E" "Penta_E" "PentaE" (pentaFold "Penta D" "Penta_D" "PentaD" d)
  else d

/-- One raw per-sample group as assembled by `str_ingress` before the final
DataFrame: a wide-layout sample carries, per marker, the list of its
allele-cell strings (lines 52-69); a long-layout sample carries its row dict
(lines 92-98, values already strings with NaN replaced by `""`). -/
inductive RawRecord where
  | wide (name : String) (cells : List (String × List String))
  | long (name : String) (d : Rec)

/-- The per-sample cleaning performed by each branch of `str_ingress`:
wide rows get assembled, deduplicated and Penta-fixed; long rows get
`_clean_element` applied to every value (and, in the source, no Penta fix). -/
def cleanRaw (pfix : Bool) : RawRecord → String × Rec
  | .wide n cells =>
      (n, pentaFixRecord pfix (cleanWideRecord (cells.map (fun p => (p.1, assembleAlleles p.2)))))
  | .long n d => (n, cleanLongRecord d)

/-- Column union of `pd.DataFrame(samps_dicts)`: the marker columns in
first-seen order across all sample dicts. -/
def markerUnion (ds : List (String × Rec)) : List String :=
  firstSeenDedup ((ds.map (fun d => d.2.map Prod.fst)).flatten)

/-- `pd.DataFrame(samps_dicts)` followed by `.replace({np.nan: ""})`: every
record acquires the full column union, with markers the sample has no entry
for filled with the empty string (pandas fills them with NaN, which the
source immediately replaces by `""`). -/
def fillFrame (ds : List (String × Rec)) : List (String × Rec) :=
  ds.map (fun d => (d.1, (markerUnion ds).map (fun c => (c, (d.2.lookup c).getD ""))))

/-- The sample-map renaming loop (`str_ingress` lines 109-113): one pass per
`(old, new)` row of the map, each pass rewriting every record whose current
`Sample` key equals `old` to `new` (the source looks the new name up by a
boolean mask; for a map without duplicate `old` entries that lookup yields
exactly the paired new name). -/
def renamePass (o n : String) (r : String × Rec) : String × Rec :=
  if r.1 == o then (n, r.2) else r

/-- `",".join` analogue for newlines, used by the `to_string` model. -/
def joinNL : List (List Char) → List Char
  | [] => []
  | t :: [] => t
  | t :: t' :: ts => t ++ '\n' :: joinNL (t' :: ts)

/-- Left-pad a string with spaces to width `w` (pandas right-justifies the
entries of a rendered Series). -/
def padLeftTo (w : Nat) (s : String) : String :=
  String.mk (List.replicate (w - s.length) ' ') ++ s

/-- pandas `Series.to_string(header=False, index=False)` on a series of
strings: one line per entry, each right-justified to the width of the longest
entry, joined by newlines. For a single entry this is the entry itself. -/
def seriesToString (l : List String) : String :=
  String.mk (joinNL ((l.map
    (padLeftTo ((l.map String.length).foldr Nat.max 0))).map String.data))

/-- The boolean-mask lookup `sample_map.iloc[:, 1][sample_map.iloc[:, 0] == id]`
(lines 111-113): the new names of every map row whose old entry equals `old`. -/
def maskNewNames (smap : List (String × String)) (old : String) : List String :=
  (smap.filter (fun p => p.1 == old)).map Prod.snd

/-- The rename loop with the full sample map `full` in scope: one pass per
remaining loop id, each pass rewriting every record whose current key equals
the id to the `to_string` rendering of all mask-matching new names. -/
def applyRenameAux (full : List (String × String)) (rows : List (String × Rec)) :
    List (String × String) → List (String × Rec) :=
  fun pending => pending.foldl
    (fun rs p => rs.map (renamePass p.1 (seriesToString (maskNewNames full p.1)))) rows

/-- The sample-map renaming loop (`str_ingress` lines 109-113): `for id in
sample_map.iloc[:, 0]` — one pass per map row, keyed by its old entry alone;
each pass assigns `sample_map.iloc[:, 1][mask].to_string(header=False,
index=False)`, i.e. the rendering of every new name whose old entry matches
(exactly the paired new name whenever the old entries are distinct; a
newline-joined, space-padded block when an old entry is duplicated). The mask
is never empty since the loop id is drawn from the old column itself. -/
def applyRename (rows : List (String × Rec)) (smap : List (String × String)) :
    List (String × Rec) :=
  applyRenameAux smap rows smap

/-- The rename loop as the idealized fold that assigns each pass's paired new
name — what `applyRename` provably reduces to when the map's old entries are
distinct. -/
def pairedRename (rows : List (String × Rec)) (smap : List (String × String)) :
    List (String × Rec) :=
  smap.foldl (fun rs p => rs.map (renamePass p.1 p.2)) rows

/-- The effect of the whole idealized rename loop on one record. -/
def renameRow (r : String × Rec) (smap : List (String × String)) : String × Rec :=
  smap.foldl (fun r p => renamePass p.1 p.2 r) r

/-- The rename loop followed by
`set_index("Sample", inplace=True, verify_integrity=True)` (line 116), which
raises a duplicate-key error — modelled as `none` — when two records share a
Sample key after renaming. -/
def renameAndVerify (rows : List (String × Rec)) (smap : List (String × String)) :
    Option (List (String × Rec)) :=
  if ((applyRename rows smap).map Prod.fst).Nodup
  then some (applyRename rows smap) else none

/-- `str_ingress` from the assembled per-sample groups to the final indexed
frame: clean each group, build the union-filled DataFrame, apply the sample
map, then verify key uniqueness. -/
def strIngressCore (input : List RawRecord) (pfix : Bool)
    (smap : List (String × String)) : Option (List (String × Rec)) :=
  renameAndVerify (fillFrame (input.map (cleanRaw pfix))) smap

/-- The renaming described by the spec's words, for comparison with
`applyRename`: every record whose (original) Sample key equals an `old`
entry is re-keyed to the corresponding `new` name, all in one simultaneous
pass; records not named in the table are unchanged. -/
def renameSpec (rows : List (String × Rec)) (smap : List (String × String)) :
    List (String × Rec) :=
  rows.map (fun r =>
    match smap.lookup r.1 with
    | some n => (n, r.2)
    | none => r)

/-! ## Similarity scorer (`score_query`) -/

/-- `set(v.split(","))`: the allele set of one marker value. -/
def aset (v : String) : Finset String := (splitComma v).toFinset

/-- The dict-comprehension filter of `score_query` (lines 154-155): keep only
markers with a non-empty allele string. -/
def recFilter (d : Rec) : Rec := d.filter (fun p => !(p.2 == ""))

/-- The marker keys of the filtered dict, as a set. -/
def recKeys (d : Rec) : Finset String := ((recFilter d).map Prod.fst).toFinset

/-- The allele set a filtered dict associates to marker `m`. -/
def recAlleles (d : Rec) (m : String) : Finset String :=
  aset (((recFilter d).lookup m).getD "")

/-- The shared markers of `score_query` (lines 158-163): intersection of the
two filtered key sets, with the amelogenin column removed unless `useAmel`. -/
def sharedMarkers (q r : Rec) (useAmel : Bool) (amel : String) : Finset String :=
  if useAmel then recKeys q ∩ recKeys r else (recKeys q ∩ recKeys r).erase amel

/-- `n_q_alleles`: total query alleles over the shared markers. -/
def nQAlleles (q r : Rec) (useAmel : Bool) (amel : String) : ℕ :=
  ∑ m ∈ sharedMarkers q r useAmel amel, (recAlleles q m).card

/-- `n_r_alleles`: total reference alleles over the shared markers. -/
def nRAlleles (q r : Rec) (useAmel : Bool) (amel : String) : ℕ :=
  ∑ m ∈ sharedMarkers q r useAmel amel, (recAlleles r m).card

/-- `n_shared_alleles`: total size of the per-marker allele intersections. -/
def nSAlleles (q r : Rec) (useAmel : Bool) (amel : String) : ℕ :=
  ∑ m ∈ sharedMarkers q r useAmel amel, ((recAlleles r m) ∩ (recAlleles q m)).card

/-- The result dict of `score_query` (lines 179-188). -/
structure ScoreResult where
  nSharedMarkers : ℕ
  nSharedAlleles : ℕ
  nQueryAlleles : ℕ
  nReferenceAlleles : ℕ
  tanabe : ℚ
  mastersQ : ℚ
  mastersR : ℚ
deriving DecidableEq, Repr

/-- `score_query` (lines 133-190). The three divisions on lines 175-177 are
evaluated in source order; a zero denominator raises an uncaught
`ZeroDivisionError` in the source, modelled here as `none`. -/
def scoreQuery (q r : Rec) (useAmel : Bool) (amel : String) : Option ScoreResult :=
  if nQAlleles q r useAmel amel + nRAlleles q r useAmel amel = 0 then none
  else if nQAlleles q r useAmel amel = 0 then none
  else if nRAlleles q r useAmel amel = 0 then none
  else some
    { nSharedMarkers := (sharedMarkers q r useAmel amel).card
      nSharedAlleles := nSAlleles q r useAmel amel
      nQueryAlleles := nQAlleles q r useAmel amel
      nReferenceAlleles := nRAlleles q r useAmel amel
      tanabe := 100 * (2 * (nSAlleles q r useAmel amel : ℚ)) /
        ((nQAlleles q r useAmel amel : ℚ) + (nRAlleles q r useAmel amel : ℚ))
      mastersQ := 100 * (nSAlleles q r useAmel amel : ℚ) / (nQAlleles q r useAmel amel : ℚ)
      mastersR := 100 * (nSAlleles q r useAmel amel : ℚ) / (nRAlleles q r useAmel amel : ℚ) }

/-! ## Mixing detector (`mixing_check`) -/

/-- The `past_th` counter of `mixing_check` (lines 206-211): how many markers
have a comma-split allele list with strictly more than 2 fields. -/
def pastTh (d : Rec) : ℕ :=
  (d.filter (fun p => decide (2 < (splitComma p.2).length))).length

/-- `mixing_check` (lines 193-216): flagged as mixed iff `past_th` strictly
exceeds the threshold (a Python `int`, hence `ℤ`). -/
def mixingCheck (d : Rec) (t : ℤ) : Bool := decide ((pastTh d : ℤ) > t)

/-! ## Summarizer (`make_summary`) -/

/-- One row of a sample's ranked comparison table, as far as `make_summary`
reads it: the partner's name and the three scores. The self-placeholder row
carries `none` (NaN) scores; rows produced by `score_query` carry `some`. -/
structure CompRow where
  sample : String
  tanabe : Option ℚ
  mastersQ : Option ℚ
  mastersR : Option ℚ
deriving DecidableEq, Repr

/-- Python `score >= threshold` on a possibly-NaN score: any comparison with
NaN is false. -/
def optGe (x : Option ℚ) (th : ℚ) : Bool :=
  match x with
  | some q => decide (th ≤ q)
  | none => false

/-- The summary record of `make_summary` (lines 281-292). The source formats
each hit as `"Sample: score"` with the score rounded to two decimals; the
formatting is not modelled — each hit is kept as the `(sample, score)` pair
it is formatted from. -/
structure SampleSummary where
  sample : String
  mixed : Bool
  topHit : String × Option ℚ
  nextBest : String × Option ℚ
  tanabeMatches : List CompRow
  mastersQMatches : List CompRow
  mastersRMatches : List CompRow
  alleles : Rec
deriving DecidableEq, Repr

/-- `make_summary` (lines 219-294). The source reads `samp_df["Sample"].iloc[1]`
and `.iloc[2]` unconditionally (lines 252-261); on a table with fewer than 3
rows pandas raises an uncaught `IndexError`, modelled as `none`. -/
def makeSummary (sampDf : List CompRow) (alleles : Rec) (tanTh masQTh masRTh : ℚ)
    (mixed : Bool) (sName : String) : Option SampleSummary :=
  match sampDf[1]?, sampDf[2]? with
  | some r1, some r2 => some
      { sample := sName
        mixed := mixed
        topHit := (r1.sample, r1.tanabe)
        nextBest := (r2.sample, r2.tanabe)
        tanabeMatches := sampDf.filter (fun r => optGe r.tanabe tanTh)
        mastersQMatches := sampDf.filter (fun r => optGe r.mastersQ masQTh)
        mastersRMatches := sampDf.filter (fun r => optGe r.mastersR masRTh)
        alleles := alleles }
  | _, _ => none

/-! ## Association-list dict lemmas -/

theorem lookup_cons_eq (es : Rec) (k b : String) : ((k, b) :: es).lookup k = some b := by
  simp [List.lookup_cons]

theorem lookup_cons_ne (es : Rec) (a b k : String) (h : k ≠ a) :
    ((a, b) :: es).lookup k = es.lookup k := by
  rw [List.lookup_cons]
  rw [show (k == a) = false from beq_eq_false_iff_ne.mpr h]

theorem lookup_dictRemove_self (d : Rec) (k : String) :
    (dictRemove d k).lookup k = none := by
  induction d with
  | nil => rfl
  | cons p rest ih =>
    obtain ⟨a, b⟩ := p
    by_cases h : a = k
    · simpa [dictRemove, List.filter_cons, h] using ih
    · rw [dictRemove, List.filter_cons]
      simp only [show ((!(a == k)) = true) from by simpa using h, if_true]
      rw [lookup_cons_ne _ _ _ _ (fun hk => h hk.symm)]
      exact ih

theorem lookup_dictRemove_ne (d : Rec) (k k' : String) (h : k' ≠ k) :
    (dictRemove d k).lookup k' = d.lookup k' := by
  induction d with
  | nil => rfl
  | cons p rest ih =>
    obtain ⟨a, b⟩ := p
    by_cases hp : a = k
    · have hk : k' ≠ a := fun hx => h (hx.trans hp)
      rw [dictRemove, List.filter_cons]
      simp only [show ((!(a == k)) = false) from by simpa using hp, if_false]
      rw [lookup_cons_ne _ _ _ _ hk]
      exact ih
    · rw [dictRemove, List.filter_cons]
      simp only [show ((!(a == k)) = true) from by simpa using hp, if_true]
      by_cases hk : k' = a
      · subst hk; rw [lookup_cons_eq, lookup_cons_eq]
      · rw [lookup_cons_ne _ _ _ _ hk, lookup_cons_ne _ _ _ _ hk]
        exact ih

theorem lookup_append (l₁ l₂ : Rec) (k : String) :
    (l₁ ++ l₂).lookup k = ((l₁.lookup k).or (l₂.lookup k)) := by
  induction l₁ with
  | nil => simp
  | cons p rest ih =>
    obtain ⟨a, b⟩ := p
    by_cases hk : k = a
    · subst hk
      rw [List.cons_append, lookup_cons_eq, lookup_cons_eq]
      rfl
    · rw [List.cons_append, lookup_cons_ne _ _ _ _ hk, lookup_cons_ne _ _ _ _ hk]
      exact ih

theorem lookup_map_overwrite (d : Rec) (k v : String) (hm : (d.lookup k).isSome) :
    (d.map (fun p => if p.1 == k then (k, v) else p)).lookup k = some v := by
  induction d with
  | nil => simp at hm
  | cons p rest ih =>
    obtain ⟨a, b⟩ := p
    by_cases hp : a = k
    · rw [List.map_cons, if_pos (show ((a, b).1 == k) = true from by simpa using hp)]
      exact lookup_cons_eq _ _ _
    · rw [lookup_cons_ne _ _ _ _ (fun hx => hp hx.symm)] at hm
      rw [List.map_cons,
        if_neg (show ¬ (((a, b).1 == k) = true) from by simpa using hp)]
      rw [lookup_cons_ne _ _ _ _ (fun hx => hp hx.symm)]
      exact ih hm

theorem lookup_map_overwrite_ne (d : Rec) (k k' v : String) (h : k' ≠ k) :
    (d.map (fun p => if p.1 == k then (k, v) else p)).lookup k' = d.lookup k' := by
  induction d with
  | nil => rfl
  | cons p rest ih =>
    obtain ⟨a, b⟩ := p
    by_cases hp : a = k
    · rw [List.map_cons, if_pos (show ((a, b).1 == k) = true from by simpa using hp)]
      rw [lookup_cons_ne _ _ _ _ h, lookup_cons_ne _ _ _ _ (by rw [hp]; exact h)]
      exact ih
    · rw [List.map_cons,
        if_neg (show ¬ (((a, b).1 == k) = true) from by simpa using hp)]
      by_cases hk : k' = a
      · subst hk; rw [lookup_cons_eq, lookup_cons_eq]
      · rw [lookup_cons_ne _ _ _ _ hk, lookup_cons_ne _ _ _ _ hk]
        exact ih

theorem lookup_dictSet_self (d : Rec) (k : String) (v : String) :
    (dictSet d k v).lookup k = some v := by
  unfold dictSet
  by_cases hm : dictMem d k = true
  · rw [if_pos hm]
    exact lookup_map_overwrite d k v (by simpa [dictMem] using hm)
  · rw [if_neg hm, lookup_append]
    have hnone : d.lookup k = none := by
      simp only [dictMem] at hm
      exact Option.not_isSome_iff_eq_none.mp (by simpa using hm)
    rw [hnone, lookup_cons_eq]
    rfl

theorem lookup_dictSet_ne (d : Rec) (k k' : String) (v : String) (h : k' ≠ k) :
    (dictSet d k v).lookup k' = d.lookup k' := by
  unfold dictSet
  by_cases hm : dictMem d k = true
  · rw [if_pos hm]
    exact lookup_map_overwrite_ne d k k' v h
  · rw [if_neg hm, lookup_append, lookup_cons_ne _ _ _ _ h]
    simp

theorem lookup_some_mem_snd (d : Rec) (k v : String) (h : d.lookup k = some v) :
    v ∈ d.map Prod.snd := by
  induction d with
  | nil => simp at h
  | cons p rest ih =>
    obtain ⟨a, b⟩ := p
    by_cases hk : k = a
    · subst hk; rw [lookup_cons_eq] at h
      simp [Option.some_inj.mp h]
    · rw [lookup_cons_ne _ _ _ _ hk] at h
      simp [ih h]

theorem mem_snd_dictRemove (d : Rec) (k w : String)
    (h : w ∈ (dictRemove d k).map Prod.snd) : w ∈ d.map Prod.snd := by
  rcases List.mem_map.mp h with ⟨p, hp, hw⟩
  exact List.mem_map.mpr ⟨p, List.mem_of_mem_filter hp, hw⟩

theorem mem_snd_dictSet (d : Rec) (k v w : String)
    (h : w ∈ (dictSet d k v).map Prod.snd) : w = v ∨ w ∈ d.map Prod.snd := by
  unfold dictSet at h
  by_cases hm : dictMem d k = true
  · rw [if_pos hm, List.map_map] at h
    rcases List.mem_map.mp h with ⟨p, hp, hw⟩
    by_cases hk : p.1 = k
    · left
      rw [← hw]
      simp only [Function.comp_apply,
        if_pos (show ((p.1 == k) = true) from by simpa using hk)]
    · right
      refine List.mem_map.mpr ⟨p, hp, ?_⟩
      rw [← hw]
      simp only [Function.comp_apply,
        if_neg (show ¬ ((p.1 == k) = true) from by simpa using hk)]
  · rw [if_neg hm, List.map_append] at h
    rcases List.mem_append.mp h with h1 | h1
    · exact Or.inr h1
    · left; simpa using h1

theorem mem_snd_pentaFold (a b c : String) (d : Rec) (w : String)
    (h : w ∈ (pentaFold a b c d).map Prod.snd) : w ∈ d.map Prod.snd := by
  unfold pentaFold at h
  cases hA : d.lookup a with
  | some v =>
    rw [hA] at h
    rcases mem_snd_dictSet _ _ _ _ h with h1 | h1
    · exact h1 ▸ lookup_some_mem_snd d a v hA
    · exact mem_snd_dictRemove _ _ _ h1
  | none =>
    rw [hA] at h
    cases hB : d.lookup b with
    | some v =>
      rw [hB] at h
      rcases mem_snd_dictSet _ _ _ _ h with h1 | h1
      · exact h1 ▸ lookup_some_mem_snd d b v hB
      · exact mem_snd_dictRemove _ _ _ h1
    | none => rw [hB] at h; exact h

theorem mem_snd_pentaFixRecord (pfix : Bool) (d : Rec) (w : String)
    (h : w ∈ (pentaFixRecord pfix d).map Prod.snd) : w ∈ d.map Prod.snd := by
  unfold pentaFixRecord at h
  cases pfix with
  | false => simpa using h
  | true => exact mem_snd_pentaFold _ _ _ _ _ (mem_snd_pentaFold _ _ _ _ _ h)

/-! ## Claim C1: zero-allele denominators in `score_query` -/

/-- Claim C1: the claim says a (query, reference) pair with zero total allele
counts over shared markers yields a defined result (e.g. NaN) rather than an
uncaught division-by-zero fault. In the source, `score_query` divides the
integer counts directly (lines 175-177), so a pair sharing no markers — here
two samples with disjoint marker sets — raises an uncaught
`ZeroDivisionError`, modelled as `none`: the code crashes where the claim
requires a defined result. -/
theorem score_query_zero_denominator_fault :
    scoreQuery [("M1", "9")] [("M2", "9")] false "AMEL" = none ∧
    scoreQuery [("M1", "")] [("M1", "")] false "AMEL" = none := by
  exact ⟨rfl, rfl⟩

/-! ## Claim C2: `make_summary` on cohorts of fewer than 3 samples -/

/-- Claim C2: the claim says a cohort of fewer than 3 samples yields a
defined, non-crashing summary with an absent `next_best`. In the source,
`make_summary` reads `samp_df["Sample"].iloc[1]` and `.iloc[2]`
unconditionally (lines 252-261), so a ranked table of 1 row (cohort of 1) or
2 rows (cohort of 2) raises an uncaught `IndexError`, modelled as `none`; a
3-row table succeeds. The code crashes where the claim requires a defined
summary. -/
theorem make_summary_small_cohort_fault :
    makeSummary [⟨"A", none, none, none⟩] [] 80 80 80 false "A" = none ∧
    makeSummary [⟨"A", none, none, none⟩, ⟨"B", some 50, some 50, some 50⟩]
      [] 80 80 80 false "A" = none ∧
    (makeSummary [⟨"A", none, none, none⟩, ⟨"B", some 100, some 100, some 100⟩,
      ⟨"C", some 0, some 0, some 0⟩] [] 80 80 80 false "A").isSome = true := by
  exact ⟨rfl, rfl, rfl⟩

/-! ## Claim C4: the trailing-".0" cleanup -/

/-- Claim C4: the claim says canonicalization removes exactly a literal
trailing `".0"` suffix and preserves labels such as `"10"` and `"200"`
verbatim. The source uses Python's `rstrip(".0")` (lines 56 and 126), which
removes every trailing `'.'`-or-`'0'` character: `_clean_element` turns
`"10"` into `"1"` and the wide-layout cell cleanup turns `"200"` into `"2"`,
so those labels are not preserved. -/
theorem rstrip_artifact_mangles_labels :
    cleanElement "10" = "1" ∧ assembleAlleles ["200"] = "2" ∧
    rstripDotZero "10.0" = "1" ∧ ("1" : String) ≠ "10" := by
  exact ⟨rfl, rfl, rfl, by decide⟩

/-! ## Claim C5: Penta alias folding -/

/-- Claim C5 counterexample: the claim says that when both the canonical key
and an alias key are present, the canonical key's value wins. In the source
(line 81) `samps_dict["PentaD"] = samps_dict.pop("Penta D")` overwrites the
canonical key's value with the alias's value: on
`[("PentaD", "1"), ("Penta D", "2")]` the surviving value is `"2"`, not the
canonical `"1"`. -/
theorem penta_alias_value_overwrites_canonical :
    (pentaFixRecord true [("PentaD", "1"), ("Penta D", "2")]).lookup "PentaD"
      = some "2" ∧
    (pentaFixRecord true [("PentaD", "1"), ("Penta D", "2")]).lookup "PentaD"
      ≠ some "1" := by
  exact ⟨rfl, by decide⟩

/-- Claim C5 as amended: with penta-fix enabled, the WIDE branch re-keys a
`"Penta D"` alias to `"PentaD"` and a `"Penta E"` alias to `"PentaE"`, each
carrying the alias's AlleleSet — which overwrites any pre-existing canonical
key's value (the alias's value wins, not the canonical's); the alias keys are
removed. The long branch applies no folding at all (its cleanup changes no
key names), and with penta-fix disabled the record is untouched. -/
theorem penta_fix_amended (d : Rec) (vD vE : String)
    (hD : d.lookup "Penta D" = some vD) (hE : d.lookup "Penta E" = some vE) :
    pentaFixRecord false d = d ∧
    (pentaFixRecord true d).lookup "PentaD" = some vD ∧
    (pentaFixRecord true d).lookup "Penta D" = none ∧
    (pentaFixRecord true d).lookup "PentaE" = some vE ∧
    (pentaFixRecord true d).lookup "Penta E" = none ∧
    (cleanLongRecord d).map Prod.fst = d.map Prod.fst := by
  have hfoldD : pentaFold "Penta D" "Penta_D" "PentaD" d
      = dictSet (dictRemove d "Penta D") "PentaD" vD := by
    unfold pentaFold; rw [hD]
  have hd1E : (dictSet (dictRemove d "Penta D") "PentaD" vD).lookup "Penta E"
      = some vE := by
    rw [lookup_dictSet_ne _ _ _ _ (by decide), lookup_dictRemove_ne _ _ _ (by decide), hE]
  have hfix : pentaFixRecord true d
      = dictSet (dictRemove (dictSet (dictRemove d "Penta D") "PentaD" vD) "Penta E")
          "PentaE" vE := by
    unfold pentaFixRecord
    rw [if_pos rfl, hfoldD]
    unfold pentaFold
    rw [hd1E]
  refine ⟨rfl, ?_, ?_, ?_, ?_, ?_⟩
  · rw [hfix, lookup_dictSet_ne _ _ _ _ (by decide),
      lookup_dictRemove_ne _ _ _ (by decide), lookup_dictSet_self]
  · rw [hfix, lookup_dictSet_ne _ _ _ _ (by decide),
      lookup_dictRemove_ne _ _ _ (by decide), lookup_dictSet_ne _ _ _ _ (by decide),
      lookup_dictRemove_self]
  · rw [hfix, lookup_dictSet_self]
  · rw [hfix, lookup_dictSet_ne _ _ _ _ (by decide), lookup_dictRemove_self]
  · unfold cleanLongRecord
    rw [List.map_map]
    rfl

/-- Witness for `penta_fix_amended` at a concrete record containing the
canonical `"PentaD"` key alongside both aliases' canonical targets. -/
theorem penta_fix_amended_witness :
    pentaFixRecord false [("PentaD", "1"), ("Penta D", "2"), ("Penta E", "3")]
      = [("PentaD", "1"), ("Penta D", "2"), ("Penta E", "3")] ∧
    (pentaFixRecord true [("PentaD", "1"), ("Penta D", "2"), ("Penta E", "3")]).lookup "PentaD"
      = some "2" ∧
    (pentaFixRecord true [("PentaD", "1"), ("Penta D", "2"), ("Penta E", "3")]).lookup "Penta D"
      = none ∧
    (pentaFixRecord true [("PentaD", "1"), ("Penta D", "2"), ("Penta E", "3")]).lookup "PentaE"
      = some "3" ∧
    (pentaFixRecord true [("PentaD", "1"), ("Penta D", "2"), ("Penta E", "3")]).lookup "Penta E"
      = none ∧
    (cleanLongRecord [("PentaD", "1"), ("Penta D", "2"), ("Penta E", "3")]).map Prod.fst
      = [("PentaD", "1"), ("Penta D", "2"), ("Penta E", "3")].map Prod.fst := by
  exact penta_fix_amended _ "2" "3" rfl rfl

/-! ## Claim C8: sample renaming -/

/-- Claim C8 counterexample: the claim says each record whose key equals an
`old` entry is re-keyed to the corresponding `new` name and a duplicate-key
error occurs only when the resulting keys collide. The source's rename loop
(lines 110-113) is sequential, so with map `[("A","B"), ("B","C")]` a record
keyed `"A"` is renamed twice (to `"C"`), colliding with the record keyed
`"B"`: ingestion fails (`none`) although the claim's per-entry mapping gives
the distinct keys `["B", "C"]`. -/
theorem rename_chaining_counterexample :
    strIngressCore [RawRecord.long "A" [("M1", "9")], RawRecord.long "B" [("M1", "10")]]
      true [("A", "B"), ("B", "C")] = none ∧
    (renameSpec
      (fillFrame ([RawRecord.long "A" [("M1", "9")], RawRecord.long "B" [("M1", "10")]].map
        (cleanRaw true)))
      [("A", "B"), ("B", "C")]).map Prod.fst = ["B", "C"] ∧
    (["B", "C"] : List String).Nodup := by
  refine ⟨rfl, rfl, by decide⟩

theorem lookup_eq_none_of_forall_ne (l : List (String × String)) (k : String)
    (h : ∀ q ∈ l, k ≠ q.1) : l.lookup k = none := by
  induction l with
  | nil => rfl
  | cons p rest ih =>
    obtain ⟨a, b⟩ := p
    rw [lookup_cons_ne _ _ _ _ (h (a, b) (List.mem_cons_self _ _))]
    exact ih (fun q hq => h q (List.mem_cons_of_mem _ hq))

theorem pairedRename_eq_map_renameRow (rows : List (String × Rec))
    (smap : List (String × String)) :
    pairedRename rows smap = rows.map (fun r => renameRow r smap) := by
  induction smap generalizing rows with
  | nil => simp [pairedRename, renameRow]
  | cons p rest ih =>
    show pairedRename (rows.map (renamePass p.1 p.2)) rest = _
    rw [ih, List.map_map]
    rfl

theorem seriesToString_singleton (s : String) : seriesToString [s] = s := by
  unfold seriesToString padLeftTo joinNL
  simp only [List.map_cons, List.map_nil, List.foldr_cons, List.foldr_nil,
    Nat.max_zero, Nat.sub_self, List.replicate_zero]
  rfl

theorem maskNewNames_eq_of_nodup (smap : List (String × String))
    (hnodup : (smap.map Prod.fst).Nodup) (p : String × String) (hp : p ∈ smap) :
    maskNewNames smap p.1 = [p.2] := by
  induction smap with
  | nil => simp at hp
  | cons q rest ih =>
    have hq : q.1 ∉ rest.map Prod.fst := (List.nodup_cons.mp (by simpa using hnodup)).1
    rcases List.mem_cons.mp hp with h | h
    · subst h
      unfold maskNewNames
      rw [List.filter_cons, if_pos (by simp)]
      have hrest : rest.filter (fun r => r.1 == p.1) = [] := by
        rw [List.filter_eq_nil_iff]
        intro r hr
        simp only [beq_iff_eq]
        intro hpr
        exact hq (hpr ▸ List.mem_map_of_mem Prod.fst hr)
      unfold maskNewNames at hrest
      simp [hrest]
    · have hne : q.1 ≠ p.1 := by
        intro hx
        exact hq (hx ▸ List.mem_map_of_mem Prod.fst h)
      unfold maskNewNames
      rw [List.filter_cons, if_neg (by simpa using hne)]
      exact ih (List.nodup_cons.mp (by simpa using hnodup)).2 h

theorem applyRename_eq_pairedRename (rows : List (String × Rec))
    (smap : List (String × String)) (hnodup : (smap.map Prod.fst).Nodup) :
    applyRename rows smap = pairedRename rows smap := by
  have hmask : ∀ p ∈ smap, seriesToString (maskNewNames smap p.1) = p.2 :=
    fun p hp => by rw [maskNewNames_eq_of_nodup smap hnodup p hp,
      seriesToString_singleton]
  show applyRenameAux smap rows smap = pairedRename rows smap
  have haux : ∀ (pending : List (String × String)),
      (∀ p ∈ pending, seriesToString (maskNewNames smap p.1) = p.2) →
      ∀ rows, applyRenameAux smap rows pending
        = pending.foldl (fun rs p => rs.map (renamePass p.1 p.2)) rows := by
    intro pending
    induction pending with
    | nil => intro _ rows; rfl
    | cons p rest ih =>
      intro hpend rows
      show applyRenameAux smap
          (rows.map (renamePass p.1 (seriesToString (maskNewNames smap p.1)))) rest = _
      rw [hpend p (List.mem_cons_self _ _)]
      exact ih (fun q hq => hpend q (List.mem_cons_of_mem _ hq)) _
  exact haux smap hmask rows

theorem renameRow_eq_spec (r : String × Rec) (smap : List (String × String))
    (hdisj : ∀ p ∈ smap, ∀ q ∈ smap, p.2 ≠ q.1) :
    renameRow r smap =
      (match smap.lookup r.1 with
       | some n => (n, r.2)
       | none => r) := by
  induction smap generalizing r with
  | nil => rfl
  | cons p rest ih =>
    obtain ⟨o, n⟩ := p
    have hrest : ∀ p ∈ rest, ∀ q ∈ rest, p.2 ≠ q.1 := fun p hp q hq =>
      hdisj p (List.mem_cons_of_mem _ hp) q (List.mem_cons_of_mem _ hq)
    show renameRow (renamePass o n r) rest = _
    by_cases h : r.1 = o
    · have hpass : renamePass o n r = (n, r.2) := by
        unfold renamePass
        rw [if_pos (by simpa using h)]
      rw [hpass, ih _ hrest]
      have hnone : rest.lookup n = none :=
        lookup_eq_none_of_forall_ne _ _ (fun q hq =>
          hdisj (o, n) (List.mem_cons_self _ _) q (List.mem_cons_of_mem _ hq))
      rw [hnone]
      rw [show ((o, n) :: rest).lookup r.1 = some n from by
        rw [h]; exact lookup_cons_eq _ _ _]
    · have hpass : renamePass o n r = r := by
        unfold renamePass
        rw [if_neg (by simpa using h)]
      rw [hpass, ih _ hrest]
      rw [lookup_cons_ne _ _ _ _ h]

/-- Claim C8 as amended: the rename loop is sequential — one full pass per
map row, keyed by its old entry, each pass assigning the `to_string`
rendering of every new name whose old entry matches (the paired new name
when the old entries are distinct; a newline-joined block when an old entry
is duplicated) — so a record can be renamed repeatedly when a pass's new
name also occurs as a later pass's old name. For a map whose old entries are
distinct and in which no new name occurs anywhere as an old name (no
chaining), each record whose Sample key equals an old entry is re-keyed to
the corresponding new name, all other records are unchanged, and ingestion
fails with a duplicate-sample error exactly when the post-rename keys
collide. -/
theorem rename_sequential_amended (rows : List (String × Rec))
    (smap : List (String × String))
    (hnodup : (smap.map Prod.fst).Nodup)
    (hdisj : ∀ p ∈ smap, ∀ q ∈ smap, p.2 ≠ q.1) :
    applyRename rows smap = renameSpec rows smap ∧
    renameAndVerify rows smap =
      (if ((renameSpec rows smap).map Prod.fst).Nodup
       then some (renameSpec rows smap) else none) := by
  have hmain : applyRename rows smap = renameSpec rows smap := by
    rw [applyRename_eq_pairedRename rows smap hnodup,
      pairedRename_eq_map_renameRow]
    unfold renameSpec
    exact List.map_congr_left (fun r _ => renameRow_eq_spec r smap hdisj)
  exact ⟨hmain, by unfold renameAndVerify; rw [hmain]⟩

/-- Witness for `rename_sequential_amended` on a duplicate-free, chain-free
one-row map. -/
theorem rename_sequential_amended_witness :
    applyRename [("A", [("M1", "9")]), ("B", [("M2", "8")])] [("A", "X")]
      = renameSpec [("A", [("M1", "9")]), ("B", [("M2", "8")])] [("A", "X")] ∧
    renameAndVerify [("A", [("M1", "9")]), ("B", [("M2", "8")])] [("A", "X")]
      = (if ((renameSpec [("A", [("M1", "9")]), ("B", [("M2", "8")])]
          [("A", "X")]).map Prod.fst).Nodup
         then some (renameSpec [("A", [("M1", "9")]), ("B", [("M2", "8")])] [("A", "X")])
         else none) := by
  exact rename_sequential_amended _ _ (by decide) (by decide)

/-! ## Claim C6: symmetry of the scorer -/

theorem sharedMarkers_comm (q r : Rec) (u : Bool) (a : String) :
    sharedMarkers q r u a = sharedMarkers r q u a := by
  cases u <;> simp [sharedMarkers, Finset.inter_comm]

theorem nQAlleles_swap (q r : Rec) (u : Bool) (a : String) :
    nQAlleles r q u a = nRAlleles q r u a := by
  unfold nQAlleles nRAlleles
  rw [sharedMarkers_comm]

theorem nRAlleles_swap (q r : Rec) (u : Bool) (a : String) :
    nRAlleles r q u a = nQAlleles q r u a := by
  unfold nQAlleles nRAlleles
  rw [sharedMarkers_comm]

theorem nSAlleles_swap (q r : Rec) (u : Bool) (a : String) :
    nSAlleles r q u a = nSAlleles q r u a := by
  unfold nSAlleles
  rw [sharedMarkers_comm]
  exact Finset.sum_congr rfl (fun m _ => by rw [Finset.inter_comm])

theorem scoreQuery_eq_some (q : Rec) (r : Rec) (u : Bool) (a : String)
    (s : ScoreResult) (h : scoreQuery q r u a = some s) :
    s = { nSharedMarkers := (sharedMarkers q r u a).card
          nSharedAlleles := nSAlleles q r u a
          nQueryAlleles := nQAlleles q r u a
          nReferenceAlleles := nRAlleles q r u a
          tanabe := 100 * (2 * (nSAlleles q r u a : ℚ)) /
            ((nQAlleles q r u a : ℚ) + (nRAlleles q r u a : ℚ))
          mastersQ := 100 * (nSAlleles q r u a : ℚ) / (nQAlleles q r u a : ℚ)
          mastersR := 100 * (nSAlleles q r u a : ℚ) / (nRAlleles q r u a : ℚ) } := by
  unfold scoreQuery at h
  split_ifs at h
  exact (Option.some.inj h).symm

/-- Claim C6: for records scored in both directions (same `use_amel` and
amelogenin-column configuration), the Tanabe score is symmetric and the
Masters query score of one direction equals the Masters reference score of
the other. -/
theorem score_query_symmetric (q : Rec) (r : Rec) (u : Bool) (a : String)
    (s₁ s₂ : ScoreResult)
    (h₁ : scoreQuery q r u a = some s₁) (h₂ : scoreQuery r q u a = some s₂) :
    s₁.tanabe = s₂.tanabe ∧ s₁.mastersQ = s₂.mastersR := by
  rw [scoreQuery_eq_some q r u a s₁ h₁, scoreQuery_eq_some r q u a s₂ h₂]
  constructor
  · show (100 : ℚ) * _ / _ = 100 * _ / _
    rw [nQAlleles_swap q r u a, nRAlleles_swap q r u a, nSAlleles_swap q r u a,
      add_comm ((nQAlleles q r u a : ℚ)) ((nRAlleles q r u a : ℚ))]
  · show (100 : ℚ) * _ / _ = 100 * _ / _
    rw [nRAlleles_swap q r u a, nSAlleles_swap q r u a]

/-- Witness for `score_query_symmetric` on two concrete single-marker
records: the query has the 3 alleles `9,10,11`, the reference the single
allele `9`. -/
theorem score_query_symmetric_witness :
    scoreQuery [("M1", "9,10,11")] [("M1", "9")] false "AMEL"
      = some ⟨1, 1, 3, 1, 50, 100/3, 100⟩ ∧
    scoreQuery [("M1", "9")] [("M1", "9,10,11")] false "AMEL"
      = some ⟨1, 1, 1, 3, 50, 100, 100/3⟩ ∧
    (⟨1, 1, 3, 1, 50, 100/3, 100⟩ : ScoreResult).tanabe
      = (⟨1, 1, 1, 3, 50, 100, 100/3⟩ : ScoreResult).tanabe ∧
    (⟨1, 1, 3, 1, 50, 100/3, 100⟩ : ScoreResult).mastersQ
      = (⟨1, 1, 1, 3, 50, 100, 100/3⟩ : ScoreResult).mastersR := by
  have hm : (sharedMarkers [("M1", "9,10,11")] [("M1", "9")] false "AMEL").card = 1 := by
    decide
  have hm' : (sharedMarkers [("M1", "9")] [("M1", "9,10,11")] false "AMEL").card = 1 := by
    decide
  have hq : nQAlleles [("M1", "9,10,11")] [("M1", "9")] false "AMEL" = 3 := by decide
  have hr : nRAlleles [("M1", "9,10,11")] [("M1", "9")] false "AMEL" = 1 := by decide
  have hs : nSAlleles [("M1", "9,10,11")] [("M1", "9")] false "AMEL" = 1 := by decide
  have hq' : nQAlleles [("M1", "9")] [("M1", "9,10,11")] false "AMEL" = 1 := by decide
  have hr' : nRAlleles [("M1", "9")] [("M1", "9,10,11")] false "AMEL" = 3 := by decide
  have hs' : nSAlleles [("M1", "9")] [("M1", "9,10,11")] false "AMEL" = 1 := by decide
  have h₁ : scoreQuery [("M1", "9,10,11")] [("M1", "9")] false "AMEL"
      = some ⟨1, 1, 3, 1, 50, 100/3, 100⟩ := by
    unfold scoreQuery
    rw [hq, hr, hs, hm]
    norm_num [ScoreResult.mk.injEq]
  have h₂ : scoreQuery [("M1", "9")] [("M1", "9,10,11")] false "AMEL"
      = some ⟨1, 1, 1, 3, 50, 100, 100/3⟩ := by
    unfold scoreQuery
    rw [hq', hr', hs', hm']
    norm_num [ScoreResult.mk.injEq]
  exact ⟨h₁, h₂, (score_query_symmetric _ _ _ _ _ _ h₁ h₂).1,
    (score_query_symmetric _ _ _ _ _ _ h₁ h₂).2⟩

/-! ## Claim C7: the mixing detector's counting rule -/

/-- Claim C7: for a record whose values are duplicate-free allele lists (the
canonicalizer's invariant), the mixing detector flags the sample iff the
number of markers whose allele set has strictly more than 2 alleles strictly
exceeds the threshold; in particular exactly `t+1` such markers flag and
exactly `t` do not. -/
theorem mixing_check_iff_count (d : Rec) (t : ℤ)
    (h : ∀ p ∈ d, (splitComma p.2).Nodup) :
    mixingCheck d t = true ↔
      t < ((d.filter (fun p => decide (2 < (aset p.2).card))).length : ℤ) := by
  have hf : d.filter (fun p => decide (2 < (splitComma p.2).length))
      = d.filter (fun p => decide (2 < (aset p.2).card)) := by
    apply List.filter_congr
    intro p hp
    have hc : (aset p.2).card = (splitComma p.2).length := by
      simpa [aset] using List.toFinset_card_of_nodup (h p hp)
    rw [hc]
  unfold mixingCheck pastTh
  rw [hf]
  simp [gt_iff_lt]

/-- Witness for `mixing_check_iff_count`: one 3-allele marker against
threshold 0 flags the record. -/
theorem mixing_check_iff_count_witness :
    mixingCheck [("M1", "9,10,11"), ("M2", "9")] 0 = true ↔
      (0 : ℤ) < (([("M1", "9,10,11"), ("M2", "9")].filter
        (fun p => decide (2 < (aset p.2).card))).length : ℤ) := by
  exact mixing_check_iff_count _ 0 (by decide)

/-! ## Claim C10: low-allele records are never flagged -/

/-- Claim C10: an empty allele string splits into the single field `""`, so
it never counts toward the mixing total; a record in which every marker's
comma-split allele list has at most 2 fields (which covers all-empty
records) is reported unmixed for every threshold `≥ 0`. -/
theorem mixing_check_low_allele_false (d : Rec) (t : ℤ)
    (h1 : ∀ p ∈ d, (splitComma p.2).length ≤ 2) (h2 : 0 ≤ t) :
    (splitComma "").length = 1 ∧ mixingCheck d t = false := by
  refine ⟨rfl, ?_⟩
  have hz : pastTh d = 0 := by
    unfold pastTh
    rw [List.length_eq_zero, List.filter_eq_nil_iff]
    intro p hp
    simpa using Nat.not_lt.mpr (h1 p hp)
  unfold mixingCheck
  rw [hz]
  simp only [Nat.cast_zero, gt_iff_lt, decide_eq_false_iff_not, not_lt]
  exact h2

/-- Witness for `mixing_check_low_allele_false` on a two-marker record, one
marker of which is an empty call. -/
theorem mixing_check_low_allele_false_witness :
    (splitComma "").length = 1 ∧
    mixingCheck [("M1", "9,10"), ("M2", "")] 3 = false := by
  exact mixing_check_low_allele_false _ 3 (by decide) (by decide)

/-! ## Split/join round-trip lemmas -/

theorem splitC_ne_nil (l : List Char) : splitC l ≠ [] := by
  induction l with
  | nil => simp [splitC]
  | cons c rest ih =>
    unfold splitC
    by_cases h : c = ','
    · simp [h]
    · rw [if_neg h]
      cases hs : splitC rest with
      | nil => exact absurd hs ih
      | cons t ts => simp

theorem mem_splitC_no_comma (l : List Char) : ∀ t ∈ splitC l, ',' ∉ t := by
  induction l with
  | nil =>
    intro t ht
    simp [splitC] at ht
    simp [ht]
  | cons c rest ih =>
    intro t ht
    unfold splitC at ht
    by_cases h : c = ','
    · rw [if_pos h] at ht
      rcases List.mem_cons.mp ht with h1 | h1
      · simp [h1]
      · exact ih t h1
    · rw [if_neg h] at ht
      cases hs : splitC rest with
      | nil => exact absurd hs (splitC_ne_nil rest)
      | cons t' ts =>
        rw [hs] at ht
        rcases List.mem_cons.mp ht with h1 | h1
        · subst h1
          intro hmem
          rcases List.mem_cons.mp hmem with h2 | h2
          · exact h h2.symm
          · exact ih t' (hs ▸ List.mem_cons_self _ _) h2
        · exact ih t (hs ▸ List.mem_cons_of_mem _ h1)

theorem splitC_append_cons (t l : List Char) (hs : List Char) (ts : List (List Char))
    (hc : ',' ∉ t) (he : splitC l = hs :: ts) :
    splitC (t ++ l) = (t ++ hs) :: ts := by
  induction t with
  | nil => simpa using he
  | cons c t' ih =>
    have hcc : c ≠ ',' := fun hx => hc (hx ▸ List.mem_cons_self _ _)
    have hct : ',' ∉ t' := fun hx => hc (List.mem_cons_of_mem _ hx)
    rw [List.cons_append]
    unfold splitC
    rw [if_neg (fun hx => hcc hx)]
    rw [ih hct]
    rfl

theorem splitC_of_no_comma (t : List Char) (hc : ',' ∉ t) : splitC t = [t] := by
  have := splitC_append_cons t [] [] [] hc (by simp [splitC])
  simpa using this

theorem splitC_joinC (ts : List (List Char)) (hne : ts ≠ [])
    (hc : ∀ t ∈ ts, ',' ∉ t) : splitC (joinC ts) = ts := by
  induction ts with
  | nil => exact absurd rfl hne
  | cons t rest ih =>
    cases rest with
    | nil =>
      show splitC (joinC [t]) = [t]
      rw [show joinC [t] = t from rfl]
      exact splitC_of_no_comma t (hc t (List.mem_cons_self _ _))
    | cons t' ts' =>
      have hrest : splitC (joinC (t' :: ts')) = t' :: ts' :=
        ih (by simp) (fun x hx => hc x (List.mem_cons_of_mem _ hx))
      show splitC (t ++ ',' :: joinC (t' :: ts')) = t :: t' :: ts'
      have hsplit : splitC (',' :: joinC (t' :: ts')) = [] :: t' :: ts' := by
        unfold splitC
        rw [if_pos rfl, hrest]
      rw [splitC_append_cons t (',' :: joinC (t' :: ts')) [] (t' :: ts')
        (hc t (List.mem_cons_self _ _)) hsplit]
      simp

theorem splitComma_ne_nil (s : String) : splitComma s ≠ [] := by
  unfold splitComma
  simpa using splitC_ne_nil s.data

theorem mem_splitComma_no_comma (s : String) :
    ∀ x ∈ splitComma s, ',' ∉ x.data := by
  intro x hx
  unfold splitComma at hx
  rcases List.mem_map.mp hx with ⟨t, ht, hmk⟩
  subst hmk
  exact mem_splitC_no_comma s.data t ht

theorem splitComma_joinComma (l : List String) (hne : l ≠ [])
    (hc : ∀ s ∈ l, ',' ∉ s.data) : splitComma (joinComma l) = l := by
  unfold splitComma joinComma
  rw [show (String.mk (joinC (l.map String.data))).data = joinC (l.map String.data)
    from rfl]
  rw [splitC_joinC (l.map String.data) (by simpa using hne)
    (fun t ht => by
      rcases List.mem_map.mp ht with ⟨s, hs, hd⟩
      exact hd ▸ hc s hs)]
  rw [List.map_map]
  calc l.map (String.mk ∘ String.data) = l.map id :=
        List.map_congr_left (fun s _ => rfl)
    _ = l := List.map_id l

/-! ## Deduplication, sorting and token-cleanup lemmas -/

theorem mem_fsdAux (l : List String) : ∀ (seen : List String) (x : String),
    x ∈ fsdAux seen l → x ∈ l ∧ x ∉ seen := by
  induction l with
  | nil => intro seen x hx; simp [fsdAux] at hx
  | cons a rest ih =>
    intro seen x hx
    unfold fsdAux at hx
    by_cases h : a ∈ seen
    · rw [if_pos h] at hx
      obtain ⟨h1, h2⟩ := ih seen x hx
      exact ⟨List.mem_cons_of_mem _ h1, h2⟩
    · rw [if_neg h] at hx
      rcases List.mem_cons.mp hx with h1 | h1
      · exact ⟨h1 ▸ List.mem_cons_self _ _, h1 ▸ h⟩
      · obtain ⟨h2, h3⟩ := ih (a :: seen) x h1
        exact ⟨List.mem_cons_of_mem _ h2,
          fun hs => h3 (List.mem_cons_of_mem _ hs)⟩

theorem fsdAux_nodup (l : List String) : ∀ seen : List String,
    (fsdAux seen l).Nodup := by
  induction l with
  | nil => intro seen; simp [fsdAux]
  | cons a rest ih =>
    intro seen
    unfold fsdAux
    by_cases h : a ∈ seen
    · rw [if_pos h]; exact ih seen
    · rw [if_neg h]
      refine List.nodup_cons.mpr ⟨?_, ih (a :: seen)⟩
      intro hmem
      exact (mem_fsdAux rest (a :: seen) a hmem).2 (List.mem_cons_self _ _)

theorem firstSeenDedup_subset (l : List String) :
    ∀ x ∈ firstSeenDedup l, x ∈ l :=
  fun x hx => (mem_fsdAux l [] x hx).1

theorem firstSeenDedup_nodup (l : List String) : (firstSeenDedup l).Nodup :=
  fsdAux_nodup l []

theorem firstSeenDedup_ne_nil (l : List String) (h : l ≠ []) :
    firstSeenDedup l ≠ [] := by
  cases l with
  | nil => exact absurd rfl h
  | cons a rest => simp [firstSeenDedup, fsdAux]

theorem insertSorted_perm (a : String) (l : List String) :
    (insertSorted a l).Perm (a :: l) := by
  induction l with
  | nil => simp [insertSorted]
  | cons b rest ih =>
    unfold insertSorted
    by_cases h : a ≤ b
    · rw [if_pos h]
    · rw [if_neg h]
      exact (List.Perm.cons b ih).trans (List.Perm.swap a b rest)

theorem sortStr_perm (l : List String) : (sortStr l).Perm l := by
  induction l with
  | nil => simp [sortStr]
  | cons a rest ih =>
    show (insertSorted a (sortStr rest)).Perm (a :: rest)
    exact (insertSorted_perm a (sortStr rest)).trans (List.Perm.cons a ih)

theorem mem_dropWhile_subset (p : Char → Bool) (l : List Char) (c : Char)
    (h : c ∈ l.dropWhile p) : c ∈ l :=
  (List.dropWhile_sublist _).subset h

theorem mem_data_trimChars (l : List Char) (c : Char) (h : c ∈ trimChars l) :
    c ∈ l := by
  unfold trimChars at h
  have h1 := mem_dropWhile_subset _ _ _ (List.mem_reverse.mp h)
  exact mem_dropWhile_subset _ _ _ (List.mem_reverse.mp h1)

theorem mem_data_pyStrip (s : String) (c : Char) (h : c ∈ (pyStrip s).data) :
    c ∈ s.data :=
  mem_data_trimChars s.data c h

theorem mem_data_rstripDotZero (s : String) (c : Char)
    (h : c ∈ (rstripDotZero s).data) : c ∈ s.data := by
  unfold rstripDotZero at h
  have h1 := mem_dropWhile_subset _ _ _ (List.mem_reverse.mp h)
  exact List.mem_reverse.mp h1

theorem no_comma_pyCleanToken (s : String) (h : ',' ∉ s.data) :
    ',' ∉ (pyCleanToken s).data := by
  intro hmem
  exact h (mem_data_pyStrip s ',' (mem_data_rstripDotZero (pyStrip s) ',' hmem))

/-! ## Canonical allele strings split into duplicate-free lists -/

theorem splitComma_dedupJoin (v : String) :
    splitComma (dedupJoin v) = firstSeenDedup (splitComma v) := by
  unfold dedupJoin
  exact splitComma_joinComma _ (firstSeenDedup_ne_nil _ (splitComma_ne_nil v))
    (fun s hs => mem_splitComma_no_comma v s (firstSeenDedup_subset _ s hs))

theorem dedupJoin_split_nodup (v : String) : (splitComma (dedupJoin v)).Nodup := by
  rw [splitComma_dedupJoin]
  exact firstSeenDedup_nodup _

theorem splitComma_cleanElement (v : String) :
    splitComma (cleanElement v)
      = sortStr (((splitComma v).map pyCleanToken).dedup) := by
  unfold cleanElement
  apply splitComma_joinComma
  · intro hs
    have hm : (splitComma v).map pyCleanToken ≠ [] := by
      simpa using splitComma_ne_nil v
    have hd : ((splitComma v).map pyCleanToken).dedup ≠ [] := by
      rw [Ne, List.dedup_eq_nil]
      exact hm
    have hlen := (sortStr_perm (((splitComma v).map pyCleanToken).dedup)).length_eq
    rw [hs] at hlen
    exact hd (List.length_eq_zero.mp hlen.symm)
  · intro s hs
    have h1 : s ∈ ((splitComma v).map pyCleanToken).dedup :=
      (sortStr_perm _).mem_iff.mp hs
    have h2 : s ∈ (splitComma v).map pyCleanToken := List.mem_dedup.mp h1
    rcases List.mem_map.mp h2 with ⟨x, hx, hpc⟩
    exact hpc ▸ no_comma_pyCleanToken x (mem_splitComma_no_comma v x hx)

theorem cleanElement_split_nodup (v : String) :
    (splitComma (cleanElement v)).Nodup := by
  rw [splitComma_cleanElement]
  exact ((sortStr_perm _).nodup_iff).mpr (List.nodup_dedup _)

theorem cleanRaw_value_nodup (pfix : Bool) (raw : RawRecord) (w : String)
    (h : w ∈ (cleanRaw pfix raw).2.map Prod.snd) : (splitComma w).Nodup := by
  cases raw with
  | wide n cells =>
    have h1 := mem_snd_pentaFixRecord pfix _ w h
    unfold cleanWideRecord at h1
    rw [List.map_map] at h1
    rcases List.mem_map.mp h1 with ⟨p, _, hw⟩
    rw [← hw]
    exact dedupJoin_split_nodup p.2
  | long n d =>
    unfold cleanRaw cleanLongRecord at h
    rw [List.map_map] at h
    rcases List.mem_map.mp h with ⟨p, _, hw⟩
    rw [← hw]
    exact cleanElement_split_nodup p.2

/-! ## Claim C9: cohort-wide invariants of `str_ingress` -/

theorem applyRenameAux_map_snd (full : List (String × String))
    (rows : List (String × Rec)) (pending : List (String × String)) :
    (applyRenameAux full rows pending).map Prod.snd = rows.map Prod.snd := by
  induction pending generalizing rows with
  | nil => rfl
  | cons p rest ih =>
    show (applyRenameAux full
      (rows.map (renamePass p.1 (seriesToString (maskNewNames full p.1))))
      rest).map Prod.snd = _
    rw [ih, List.map_map]
    refine List.map_congr_left (fun r _ => ?_)
    unfold renamePass
    by_cases h : r.1 = p.1 <;> simp [h]

theorem applyRename_map_snd (rows : List (String × Rec))
    (smap : List (String × String)) :
    (applyRename rows smap).map Prod.snd = rows.map Prod.snd :=
  applyRenameAux_map_snd smap rows smap

theorem fillFrame_map_snd (ds : List (String × Rec)) :
    (fillFrame ds).map Prod.snd
      = ds.map (fun d => (markerUnion ds).map (fun c => (c, (d.2.lookup c).getD ""))) := by
  unfold fillFrame
  rw [List.map_map]
  rfl

/-- Claim C9: on every successful ingestion, (1) every record of the cohort
carries exactly the marker-column union as its key list (the same key set
for all records); (2) every marker value splits into a duplicate-free allele
list; (3) each record's marker dict assigns to each union column the
sample's cleaned value, and the empty string — never an absent value — to
every marker the sample has no entry for. -/
theorem ingress_cohort_invariants (input : List RawRecord) (pfix : Bool)
    (smap : List (String × String)) (out : List (String × Rec))
    (h : strIngressCore input pfix smap = some out) :
    (∀ r ∈ out, r.2.map Prod.fst = markerUnion (input.map (cleanRaw pfix))) ∧
    (∀ r ∈ out, ∀ p ∈ r.2, (splitComma p.2).Nodup) ∧
    out.map Prod.snd = (input.map (cleanRaw pfix)).map
      (fun d => (markerUnion (input.map (cleanRaw pfix))).map
        (fun c => (c, (d.2.lookup c).getD ""))) := by
  unfold strIngressCore renameAndVerify at h
  split_ifs at h
  obtain rfl := (Option.some.inj h).symm
  have hsnd := applyRename_map_snd
    (fillFrame (input.map (cleanRaw pfix))) smap
  have hfill := fillFrame_map_snd (input.map (cleanRaw pfix))
  have hout : (applyRename (fillFrame (input.map (cleanRaw pfix))) smap).map Prod.snd
      = (input.map (cleanRaw pfix)).map
        (fun d => (markerUnion (input.map (cleanRaw pfix))).map
          (fun c => (c, (d.2.lookup c).getD ""))) := hsnd.trans hfill
  refine ⟨?_, ?_, hout⟩
  · intro r hr
    have hmem : r.2 ∈ (applyRename (fillFrame (input.map (cleanRaw pfix))) smap).map
        Prod.snd := List.mem_map_of_mem Prod.snd hr
    rw [hout] at hmem
    rcases List.mem_map.mp hmem with ⟨d, _, hval⟩
    rw [← hval, List.map_map]
    calc (markerUnion (input.map (cleanRaw pfix))).map
          (Prod.fst ∘ fun c => (c, (d.2.lookup c).getD ""))
        = (markerUnion (input.map (cleanRaw pfix))).map id :=
          List.map_congr_left (fun c _ => rfl)
      _ = markerUnion (input.map (cleanRaw pfix)) := List.map_id _
  · intro r hr p hp
    have hmem : r.2 ∈ (applyRename (fillFrame (input.map (cleanRaw pfix))) smap).map
        Prod.snd := List.mem_map_of_mem Prod.snd hr
    rw [hout] at hmem
    rcases List.mem_map.mp hmem with ⟨d, hd, hval⟩
    rw [← hval] at hp
    rcases List.mem_map.mp hp with ⟨c, _, hpc⟩
    cases hl : d.2.lookup c with
    | none =>
      rw [← hpc]
      rw [hl]
      exact List.nodup_singleton ""
    | some w =>
      rw [← hpc, hl]
      rcases List.mem_map.mp hd with ⟨raw, _, hraw⟩
      refine cleanRaw_value_nodup pfix raw w ?_
      rw [hraw]
      exact lookup_some_mem_snd d.2 c w hl

/-- Witness for `ingress_cohort_invariants` on a two-sample cohort mixing a
wide-layout and a long-layout record. -/
theorem ingress_cohort_invariants_witness :
    (∀ r ∈ [("S1", [("M1", "9"), ("M2", "")]), ("S2", [("M1", ""), ("M2", "1")])],
      r.2.map Prod.fst = markerUnion
        ([RawRecord.wide "S1" [("M1", ["9", "9"])],
          RawRecord.long "S2" [("M2", "10.0,10")]].map (cleanRaw true))) ∧
    (∀ r ∈ [("S1", [("M1", "9"), ("M2", "")]), ("S2", [("M1", ""), ("M2", "1")])],
      ∀ p ∈ r.2, (splitComma p.2).Nodup) ∧
    ([("S1", [("M1", "9"), ("M2", "")]), ("S2", [("M1", ""), ("M2", "1")])].map
      Prod.snd) = (([RawRecord.wide "S1" [("M1", ["9", "9"])],
        RawRecord.long "S2" [("M2", "10.0,10")]].map (cleanRaw true)).map
        (fun d => (markerUnion ([RawRecord.wide "S1" [("M1", ["9", "9"])],
          RawRecord.long "S2" [("M2", "10.0,10")]].map (cleanRaw true))).map
          (fun c => (c, (d.2.lookup c).getD "")))) := by
  exact ingress_cohort_invariants
    [RawRecord.wide "S1" [("M1", ["9", "9"])], RawRecord.long "S2" [("M2", "10.0,10")]]
    true []
    [("S1", [("M1", "9"), ("M2", "")]), ("S2", [("M1", ""), ("M2", "1")])]
    (by decide)

end StrProfiler
